import Mathlib

/-
Verification of the flow orchestration core of openlane2
(src/openlane/flows/flow.py): the Flow orchestrator, the SequentialFlow
linear scheduling strategy, and the FlowFactory registry.

Shallow embedding conventions:
* `State` objects are abstract: a type parameter `σ` with `Inhabited σ`
  supplying the default-empty state built by `State()`.
* A `Step` type together with its freshly constructed instance (`cls()`
  takes no arguments in the source) is modelled by `StepInst`: an id, a
  display name, and an execution behaviour. The `Step` class itself is not
  part of the supplied source, so its execution behaviour is modelled from
  the spec: it consumes the previous state and either yields a new state
  or fails as `MissingInputError`, `subprocess.CalledProcessError`, or any
  other exception.
* Mutation of a Flow object is explicit state passing on the `Flow`
  structure; observable side effects (logging, progress-bar updates,
  filesystem writes, step executions) are recorded in an `Event` trace.
* Python exceptions escaping a function are `Except.error` values of
  `PyExc`; a normal return is `Except.ok`.
-/

namespace OLFlow

/-- Observable side effects of the orchestrator: log lines, progress-bar
updates (total / description / completed, with the task id), the execution
of a step recording the state it consumed, and filesystem operations. -/
inductive Event (σ : Type) where
  | logMsg : String → Event σ
  | errMsg : String → Event σ
  | successMsg : String → Event σ
  | updTotal : Nat → Nat → Event σ
  | updDescription : Nat → String → Event σ
  | updCompleted : Option Nat → Nat → Event σ
  | execStep : String → σ → Event σ
  | mkdir : String → Event σ
  | writeFile : String → String → Event σ
  | progressStart : Event σ
  | addTask : String → Event σ
  | progressStop : Event σ
deriving DecidableEq

/-- Python exceptions relevant to flow.py: the AttributeError raised by
`end_stage` when `self.progress` is None, the bare `Exception("")` raised by
`dir_for_step`, and an arbitrary exception raised by a step's execution
(anything other than the two handled kinds). -/
inductive PyExc where
  | attributeError : PyExc
  | exception : String → PyExc
  | raised : String → PyExc
deriving DecidableEq

/-- Result of one step execution (`step.start()`): a new state, a
`MissingInputError` (with its message), a `subprocess.CalledProcessError`,
or any other exception (with a description of it). -/
inductive StepResult (σ : Type) where
  | ok : σ → StepResult σ
  | missingInput : String → StepResult σ
  | calledProcessError : StepResult σ
  | otherExc : String → StepResult σ
deriving DecidableEq

/-- A step type together with the instance `cls()` constructs: a stable id
(`step.id`), a display name (`step.name`), and its execution behaviour.
Modelled from the spec: the `Step` class is not in the supplied source; per
the spec its execution operation consumes the previous State and yields a
new State or fails in one of the recognized ways. -/
structure StepInst (σ : Type) where
  id : String
  name : String
  exec : σ → StepResult σ

/-- The mutable fields of a `Flow` object, as set up by `Flow.__init__`
plus the identity data (`name`, class name, config dump text, design dir).
`progress` is `some ()` while a rich Progress object is installed; the
`Toolbox` is represented by the scratch directory it is scoped to. -/
structure Flow (σ : Type) where
  name : Option String
  className : String
  configDump : String
  design_dir : String
  steps : List (StepInst σ)
  ordinal : Nat
  max_stage : Nat
  task_id : Option Nat
  progress : Option Unit
  run_dir : Option String
  tmp_dir : Option String
  toolbox : Option String

/-- `Flow.__init__`: stores the config and design dir and zeroes every
run-scoped field. -/
def Flow.init (σ : Type) (name0 : Option String) (className0 configDump0 design_dir0 : String) :
    Flow σ :=
  { name := name0, className := className0, configDump := configDump0,
    design_dir := design_dir0, steps := [], ordinal := 0, max_stage := 0,
    task_id := none, progress := none, run_dir := none, tmp_dir := none,
    toolbox := none }

/-- `Flow.get_name`: `self.name or self.__class__.__name__` (Python `or`:
an empty string is falsy, so it also falls back to the class name). -/
def Flow.get_name {σ : Type} (f : Flow σ) : String :=
  match f.name with
  | some s => if s = "" then f.className else s
  | none => f.className

/-- `Flow.set_max_stage_count`: returns silently when progress tracking is
not active (progress or task id unset); otherwise records the count and
updates the progress total. -/
def Flow.set_max_stage_count {σ : Type} (f : Flow σ) (count : Nat) :
    Flow σ × List (Event σ) :=
  match f.progress, f.task_id with
  | some _, some tid => ({ f with max_stage := count }, [Event.updTotal tid count])
  | _, _ => (f, [])

/-- The description string `f"{self.get_name()} - Stage {self.ordinal} - {name}"`
pushed by start_stage, with `k` the already-incremented ordinal. -/
def stageDesc (nm : String) (k : Nat) (stageName : String) : String :=
  nm ++ " - Stage " ++ toString k ++ " - " ++ stageName

/-- `Flow.start_stage`: returns silently when progress tracking is not
active; otherwise increments the ordinal and updates the progress
description to `"<name> - Stage <ordinal> - <stage name>"`. -/
def Flow.start_stage {σ : Type} (f : Flow σ) (stageName : String) :
    Flow σ × List (Event σ) :=
  match f.progress, f.task_id with
  | some _, some tid =>
    ({ f with ordinal := f.ordinal + 1 },
     [Event.updDescription tid (stageDesc ( Flow.get_name f) (f.ordinal + 1) stageName)])
  | _, _ => (f, [])

/-- `Flow.end_stage`: `self.progress.update(self.task_id, completed=...)`
with no None-guard, so it raises an AttributeError when `self.progress` is
None; otherwise it marks the current ordinal as the completed count. -/
def Flow.end_stage {σ : Type} (f : Flow σ) :
    Except PyExc (Flow σ × List (Event σ)) :=
  match f.progress with
  | none => Except.error PyExc.attributeError
  | some _ => Except.ok (f, [Event.updCompleted f.task_id f.ordinal])

/-- Python `"%0Nd" % n` for a nonnegative n: zero-pad the decimal rendering
of n to the requested width (never truncating). -/
def pyZeroPad (width n : Nat) : String :=
  let s := toString n
  if width ≤ s.length then s
  else String.mk (List.replicate (width - s.length) '0') ++ s

/-- `Flow.current_stage_prefix`: the ordinal zero-padded to the number of
digits of `str(self.max_stage)`, followed by `"-"`. -/
def Flow.current_stage_prefix {σ : Type} (f : Flow σ) : String :=
  pyZeroPad ( String.length (toString f.max_stage)) f.ordinal ++ "-"

/-- `Flow.dir_for_step`: raises a bare `Exception("")` when no run
directory is set; otherwise joins the run directory with the
stage-prefixed step id. -/
def Flow.dir_for_step {σ : Type} (f : Flow σ) (step : StepInst σ) :
    Except PyExc String :=
  match f.run_dir with
  | none => Except.error (PyExc.exception "")
  | some rd => Except.ok (rd ++ "/" ++ Flow.current_stage_prefix f ++ step.id)

/-- The field updates `Flow.start` performs before delegating to `run`:
computing the run and scratch directories from the tag, constructing the
Toolbox, and installing the progress bar and its task id. -/
def Flow.startPrep {σ : Type} (f : Flow σ) (tag : Option String) (nowTag : String) :
    Flow σ :=
  let t := tag.getD nowTag
  let rd := f.design_dir ++ "/runs/" ++ t
  let td := rd ++ "/tmp"
  { f with run_dir := some rd, tmp_dir := some td, toolbox := some td,
           progress := some (), task_id := some 0 }

/-- The side effects `Flow.start` performs before delegating to `run`:
creating the run directory, writing `resolved.json`, and starting the
progress bar with a task labelled by the flow's name. -/
def Flow.startEvents {σ : Type} (f : Flow σ) (tag : Option String) (nowTag : String) :
    List (Event σ) :=
  let t := tag.getD nowTag
  let rd := f.design_dir ++ "/runs/" ++ t
  [Event.mkdir rd, Event.writeFile (rd ++ "/resolved.json") f.configDump,
   Event.progressStart, Event.addTask ( Flow.get_name f)]

/-- `Flow.start`, the sealed entry point, parameterized by the concrete
`run` implementation. `nowTag` stands for the timestamp-derived tag used
when `tag` is None. After a normal return from `run` it stops the progress
bar and resets progress, task id, tmp dir, toolbox, ordinal and max_stage;
when `run` raises, the exception propagates and no reset happens. -/
def Flow.startWith {σ : Type}
    (runImpl : Flow σ → Option σ → Flow σ × List (Event σ) × Except PyExc (Bool × List σ))
    (f : Flow σ) (with_initial_state : Option σ) (tag : Option String) (nowTag : String) :
    Flow σ × List (Event σ) × Except PyExc (Bool × List σ) :=
  let f2 := Flow.startPrep f tag nowTag
  let r := runImpl f2 with_initial_state
  match r.2.2 with
  | Except.error e => (r.1, Flow.startEvents f tag nowTag ++ r.2.1, Except.error e)
  | Except.ok res =>
      ({ r.1 with progress := none, task_id := none, tmp_dir := none,
                  toolbox := none, ordinal := 0, max_stage := 0 },
       Flow.startEvents f tag nowTag ++ r.2.1 ++ [Event.progressStop],
       Except.ok res)

/-- A SequentialFlow: the underlying Flow object plus the class-level
`Steps` list of declared step types. -/
structure SequentialFlow (σ : Type) where
  toFlow : Flow σ
  Steps : List (StepInst σ)

/-- The for-loop of `SequentialFlow.run` over the remaining declared step
types. Each iteration instantiates the step (appending it to `self.steps`),
starts its stage, and executes it against `state_list[-1]` (the execution
input is recorded as an `execStep` event); a `MissingInputError` or
`CalledProcessError` is reported and converts to `(False, state_list)`,
any other exception propagates, and on success the new state is appended
and the stage is ended. -/
def SequentialFlow.runLoop {σ : Type} [Inhabited σ] :
    List (StepInst σ) → Flow σ → List σ →
    Flow σ × List (Event σ) × Except PyExc (Bool × List σ)
  | [], f, state_list =>
      (f, [Event.successMsg "Flow complete."], Except.ok (true, state_list))
  | cls :: rest, f, state_list =>
      let s2 := Flow.start_stage { f with steps := f.steps ++ [cls] } cls.name
      let consumed := state_list.getLastD default
      match cls.exec consumed with
      | StepResult.missingInput m =>
          (s2.1,
           s2.2 ++ [Event.execStep cls.id consumed,
                    Event.errMsg ("Misconfigured flow: " ++ m)],
           Except.ok (false, state_list))
      | StepResult.calledProcessError =>
          (s2.1,
           s2.2 ++ [Event.execStep cls.id consumed,
                    Event.errMsg "An error has been encountered. The flow will stop."],
           Except.ok (false, state_list))
      | StepResult.otherExc m =>
          (s2.1, s2.2 ++ [Event.execStep cls.id consumed], Except.error (PyExc.raised m))
      | StepResult.ok new_state =>
          match Flow.end_stage s2.1 with
          | Except.error e =>
              (s2.1, s2.2 ++ [Event.execStep cls.id consumed], Except.error e)
          | Except.ok q =>
              let r := SequentialFlow.runLoop rest q.1 (state_list ++ [new_state])
              (r.1, s2.2 ++ [Event.execStep cls.id consumed] ++ q.2 ++ r.2.1, r.2.2)

/-- `SequentialFlow.run`: sets the expected stage count to the number of
declared step types, starts the lineage at `[with_initial_state or
State()]`, logs, and runs the loop; on full success appends a success
notice and returns `(True, state_list)`. -/
def SequentialFlow.run {σ : Type} [Inhabited σ] (sf : SequentialFlow σ)
    (with_initial_state : Option σ) :
    Flow σ × List (Event σ) × Except PyExc (Bool × List σ) :=
  let p := Flow.set_max_stage_count sf.toFlow sf.Steps.length
  let initial_state := with_initial_state.getD default
  let r := SequentialFlow.runLoop sf.Steps p.1 [initial_state]
  (r.1, p.2 ++ [Event.logMsg "Starting…"] ++ r.2.1, r.2.2)

/-- `start()` on a SequentialFlow: the sealed entry point driving
`SequentialFlow.run`. -/
def SequentialFlow.start {σ : Type} [Inhabited σ] (sf : SequentialFlow σ)
    (with_initial_state : Option σ) (tag : Option String) (nowTag : String) :
    Flow σ × List (Event σ) × Except PyExc (Bool × List σ) :=
  Flow.startWith (fun fl ist => SequentialFlow.run (SequentialFlow.mk fl sf.Steps) ist)
    sf.toFlow with_initial_state tag nowTag

/-- A Flow type as the registry sees it: its Python `__name__` plus an
identity distinguishing distinct types that happen to share a name. -/
structure FlowTy where
  pyName : String
  tyId : Nat
deriving DecidableEq

/-- Python dict assignment `d[k] = v`: replace the value at an existing
key in place, otherwise append the new binding at the end. -/
def dictSet (d : List (String × FlowTy)) (k : String) (v : FlowTy) :
    List (String × FlowTy) :=
  match d with
  | [] => [(k, v)]
  | (k0, v0) :: rest =>
      if k0 = k then (k, v) :: rest else (k0, v0) :: dictSet rest k v

/-- `FlowFactory.register`: stores the flow type under its own Python name. -/
def FlowFactory.register (reg : List (String × FlowTy)) (flow : FlowTy) :
    List (String × FlowTy) :=
  dictSet reg flow.pyName flow

/-- `FlowFactory.get`: `self._registry.get(name)` — the first binding of
the key, or None when absent. -/
def FlowFactory.get (reg : List (String × FlowTy)) (name0 : String) :
    Option FlowTy :=
  match reg with
  | [] => none
  | (k, v) :: rest => if k = name0 then some v else FlowFactory.get rest name0

/-- `FlowFactory.list`: the registry's keys. -/
def FlowFactory.list (reg : List (String × FlowTy)) : List String :=
  reg.map (fun p => p.1)

/-- The descriptions pushed to the progress bar, in order. -/
def descEvents {σ : Type} : List (Event σ) → List String
  | [] => []
  | Event.updDescription _ d :: rest => d :: descEvents rest
  | _ :: rest => descEvents rest

/-- The states consumed by step executions, in execution order. -/
def execInputs {σ : Type} : List (Event σ) → List σ
  | [] => []
  | Event.execStep _ s :: rest => s :: execInputs rest
  | _ :: rest => execInputs rest

/-- The stage descriptions expected for a list of steps started in
declared order, beginning after `base` already-started stages. -/
def expectedDescs {σ : Type} (nm : String) : Nat → List (StepInst σ) → List String
  | _, [] => []
  | base, st :: rest =>
      stageDesc nm (base + 1) st.name :: expectedDescs nm (base + 1) rest

/-- The cumulative effect on the Flow object of executing a list of steps
successfully: they are appended to the record of executed steps and the
ordinal advances by one per step. -/
def advance {σ : Type} (f : Flow σ) (pre : List (StepInst σ)) : Flow σ :=
  { f with steps := f.steps ++ pre, ordinal := f.ordinal + pre.length }

/-- A freshly initialized concrete flow used in witnesses. -/
def fl0 : Flow Nat := Flow.init Nat none "MyFlow" "cfg" "d"

/-- A step that succeeds, producing the successor state. -/
def okStep : StepInst Nat := StepInst.mk "ok1" "OkOne" (fun s => StepResult.ok (s + 1))

/-- A second succeeding step, doubling the state. -/
def okStep2 : StepInst Nat := StepInst.mk "ok2" "OkTwo" (fun s => StepResult.ok (s * 2))

/-- A step that raises MissingInputError. -/
def misStep : StepInst Nat := StepInst.mk "mis" "Mis" (fun _ => StepResult.missingInput "netlist")

/-- A step that raises subprocess.CalledProcessError. -/
def cpeStep : StepInst Nat := StepInst.mk "cpe" "Cpe" (fun _ => StepResult.calledProcessError)

/-- A step that raises an unanticipated exception. -/
def excStep : StepInst Nat := StepInst.mk "boom" "Boom" (fun _ => StepResult.otherExc "ValueError")

deriving instance DecidableEq for Except

/-- Helper: prepending the empty string is the identity. -/
theorem emptyStr_append (s : String) : String.mk [] ++ s = s := by
  cases s; rfl

/-- Helper: Python dict lookup after assignment of the same key. -/
theorem dictGet_dictSet (d : List (String × FlowTy)) (k : String) (v : FlowTy) :
    FlowFactory.get (dictSet d k v) k = some v := by
  induction d with
  | nil => simp [dictSet, FlowFactory.get]
  | cons p rest ih =>
      obtain ⟨k0, v0⟩ := p
      by_cases h : k0 = k
      · simp [dictSet, h, FlowFactory.get]
      · simp [dictSet, h, FlowFactory.get, ih]

/-- Helper: looking up a key bound nowhere in the registry yields none. -/
theorem dictGet_absent (d : List (String × FlowTy)) (nm : String)
    (h : ∀ p ∈ d, p.1 ≠ nm) : FlowFactory.get d nm = none := by
  induction d with
  | nil => rfl
  | cons p rest ih =>
      obtain ⟨k0, v0⟩ := p
      have hk : k0 ≠ nm := h (k0, v0) (List.mem_cons_self _ _)
      simp only [FlowFactory.get, hk, if_false]
      exact ih (fun q hq => h q (List.mem_cons_of_mem _ hq))

/-- Helper: assigning the same key twice keeps only the second value. -/
theorem dictSet_dictSet (d : List (String × FlowTy)) (k : String) (v v2 : FlowTy) :
    dictSet (dictSet d k v) k v2 = dictSet d k v2 := by
  induction d with
  | nil => simp [dictSet]
  | cons p rest ih =>
      obtain ⟨k0, v0⟩ := p
      by_cases h : k0 = k
      · simp [dictSet, h]
      · simp [dictSet, h, ih]

/-- Helper: a key of the registry after an assignment was a key before, or
is the assigned key. -/
theorem mem_keys_dictSet (d : List (String × FlowTy)) (k : String) (v : FlowTy)
    (x : String) (hx : x ∈ FlowFactory.list (dictSet d k v)) :
    x ∈ FlowFactory.list d ∨ x = k := by
  induction d with
  | nil =>
      simp [dictSet, FlowFactory.list] at hx
      exact Or.inr hx
  | cons p rest ih =>
      obtain ⟨k0, v0⟩ := p
      by_cases h : k0 = k
      · simp [dictSet, h, FlowFactory.list] at hx
        rcases hx with hx | hx
        · exact Or.inr hx
        · exact Or.inl (by simp [FlowFactory.list, hx])
      · simp [dictSet, h, FlowFactory.list] at hx
        rcases hx with hx | hx
        · exact Or.inl (by simp [FlowFactory.list, hx])
        · rcases ih (by simpa [FlowFactory.list] using hx) with h2 | h2
          · exact Or.inl (by simp [FlowFactory.list] at h2 ⊢; exact Or.inr h2)
          · exact Or.inr h2

/-- Helper: dict assignment preserves distinctness of the keys. -/
theorem nodup_dictSet (d : List (String × FlowTy)) (k : String) (v : FlowTy)
    (h : ( FlowFactory.list d).Nodup) : ( FlowFactory.list (dictSet d k v)).Nodup := by
  induction d with
  | nil => simp [dictSet, FlowFactory.list]
  | cons p rest ih =>
      obtain ⟨k0, v0⟩ := p
      simp only [FlowFactory.list, List.map_cons, List.nodup_cons] at h
      by_cases hk : k0 = k
      · subst hk
        have hset : dictSet ((k0, v0) :: rest) k0 v = (k0, v) :: rest := by
          simp [dictSet]
        rw [hset]
        simp only [FlowFactory.list, List.map_cons, List.nodup_cons]
        exact ⟨by simpa [FlowFactory.list] using h.1, by simpa [FlowFactory.list] using h.2⟩
      · simp only [dictSet, if_neg hk, FlowFactory.list, List.map_cons, List.nodup_cons]
        constructor
        · intro hmem
          rcases mem_keys_dictSet rest k v k0 (by simpa [FlowFactory.list] using hmem) with h2 | h2
          · exact h.1 (by simpa [FlowFactory.list] using h2)
          · exact hk h2
        · exact ih (by simpa [FlowFactory.list] using h.2)

/-- Helper: folding registrations over a key-distinct registry keeps the
keys distinct. -/
theorem nodup_foldl_register (fs : List FlowTy) :
    ∀ d : List (String × FlowTy), ( FlowFactory.list d).Nodup →
      ( FlowFactory.list (List.foldl FlowFactory.register d fs)).Nodup := by
  induction fs with
  | nil => intro d hd; simpa using hd
  | cons f rest ih =>
      intro d hd
      simpa [List.foldl_cons] using ih ( FlowFactory.register d f) (nodup_dictSet d f.pyName f hd)

/-- C7: register followed by get of the registered name returns exactly the
registered type; get of a name bound nowhere returns none rather than
raising; registering a type whose name equals an existing key silently
overwrites the previous entry; and the name list contains no duplicates
after any sequence of registrations. -/
theorem claim_C7 :
    (∀ (reg : List (String × FlowTy)) (T : FlowTy),
        FlowFactory.get ( FlowFactory.register reg T) T.pyName = some T)
    ∧ (∀ (reg : List (String × FlowTy)) (nm : String),
        (∀ p ∈ reg, p.1 ≠ nm) → FlowFactory.get reg nm = none)
    ∧ (∀ (reg : List (String × FlowTy)) (T T2 : FlowTy), T.pyName = T2.pyName →
        FlowFactory.register ( FlowFactory.register reg T) T2 = FlowFactory.register reg T2)
    ∧ (∀ fs : List FlowTy,
        ( FlowFactory.list (List.foldl FlowFactory.register [] fs)).Nodup) := by
  refine ⟨?_, ?_, ?_, ?_⟩
  · intro reg T
    exact dictGet_dictSet reg T.pyName T
  · intro reg nm h
    exact dictGet_absent reg nm h
  · intro reg T T2 h
    unfold FlowFactory.register
    rw [h]
    exact dictSet_dictSet reg T2.pyName T T2
  · intro fs
    exact nodup_foldl_register fs [] (by simp [FlowFactory.list])

/-- Witness for C7 at concrete registries. -/
theorem claim_C7_witness :
    FlowFactory.get ( FlowFactory.register [] (FlowTy.mk "A" 0)) "A" = some (FlowTy.mk "A" 0)
    ∧ FlowFactory.get [] "Unregistered" = none
    ∧ FlowFactory.register ( FlowFactory.register [] (FlowTy.mk "A" 0)) (FlowTy.mk "A" 1)
        = FlowFactory.register [] (FlowTy.mk "A" 1)
    ∧ ( FlowFactory.list (List.foldl FlowFactory.register []
          [FlowTy.mk "A" 0, FlowTy.mk "B" 1, FlowTy.mk "A" 2])).Nodup :=
  ⟨claim_C7.1 [] (FlowTy.mk "A" 0),
   claim_C7.2.1 [] "Unregistered" (by simp),
   claim_C7.2.2.1 [] (FlowTy.mk "A" 0) (FlowTy.mk "A" 1) rfl,
   claim_C7.2.2.2 [FlowTy.mk "A" 0, FlowTy.mk "B" 1, FlowTy.mk "A" 2]⟩

/-- C6: current_stage_prefix is the ordinal zero-padded to the digit count
of the expected stage count with a trailing separator; in particular 12/3
gives "03-" and 150/1 gives "001-". -/
theorem claim_C6 :
    (∀ (σ : Type) (f : Flow σ),
        Flow.current_stage_prefix f
          = String.mk (List.replicate
              ((toString f.max_stage).length - (toString f.ordinal).length) '0')
            ++ (toString f.ordinal ++ "-"))
    ∧ Flow.current_stage_prefix
        { Flow.init Nat none "F" "c" "d" with max_stage := 12, ordinal := 3 } = "03-"
    ∧ Flow.current_stage_prefix
        { Flow.init Nat none "F" "c" "d" with max_stage := 150, ordinal := 1 } = "001-" := by
  refine ⟨?_, by decide, by decide⟩
  intro σ f
  unfold Flow.current_stage_prefix pyZeroPad
  by_cases h : ( String.length (toString f.max_stage)) ≤ (toString f.ordinal).length
  · have h0 : ( String.length (toString f.max_stage)) - (toString f.ordinal).length = 0 :=
      Nat.sub_eq_zero_of_le h
    simp only [if_pos h, h0, List.replicate_zero]
    rw [emptyStr_append]
  · simp only [if_neg h]
    rw [String.append_assoc]

/-- C8: dir_for_step yields run_dir/current_stage_prefix()step.id, and it
fails with a fatal bare Exception exactly when no run directory has been
established. -/
theorem claim_C8 {σ : Type} (f : Flow σ) (step : StepInst σ) :
    (f.run_dir = none → Flow.dir_for_step f step = Except.error (PyExc.exception ""))
    ∧ (∀ rd, f.run_dir = some rd →
        Flow.dir_for_step f step
          = Except.ok (rd ++ "/" ++ Flow.current_stage_prefix f ++ step.id))
    ∧ ((∃ e, Flow.dir_for_step f step = Except.error e) ↔ f.run_dir = none) := by
  refine ⟨?_, ?_, ?_⟩
  · intro h
    simp [Flow.dir_for_step, h]
  · intro rd h
    simp [Flow.dir_for_step, h]
  · constructor
    · rintro ⟨e, he⟩
      cases h : f.run_dir with
      | none => rfl
      | some rd => rw [Flow.dir_for_step, h] at he; exact absurd he (by simp)
    · intro h
      exact ⟨PyExc.exception "", by simp [Flow.dir_for_step, h]⟩

/-- Witness for C8 at a concrete flow with and without a run directory. -/
theorem claim_C8_witness :
    ( Flow.dir_for_step (Flow.init Nat none "F" "c" "d") (StepInst.mk "sid" "S" StepResult.ok)
        = Except.error (PyExc.exception ""))
    ∧ ( Flow.dir_for_step
          { Flow.init Nat none "F" "c" "d" with run_dir := some "d/runs/t" }
          (StepInst.mk "sid" "S" StepResult.ok)
        = Except.ok ("d/runs/t" ++ "/"
            ++ Flow.current_stage_prefix
                 { Flow.init Nat none "F" "c" "d" with run_dir := some "d/runs/t" }
            ++ "sid")) :=
  ⟨(claim_C8 (Flow.init Nat none "F" "c" "d") (StepInst.mk "sid" "S" StepResult.ok)).1 rfl,
   (claim_C8 { Flow.init Nat none "F" "c" "d" with run_dir := some "d/runs/t" }
      (StepInst.mk "sid" "S" StepResult.ok)).2.1 "d/runs/t" rfl⟩

/-- C10: with no progress tracking installed, end_stage raises (an
AttributeError) rather than being a no-op, while set_max_stage_count and
start_stage silently return leaving the flow unchanged. -/
theorem claim_C10 {σ : Type} (f : Flow σ) (hp : f.progress = none) :
    Flow.end_stage f = Except.error PyExc.attributeError
    ∧ (∀ c, Flow.set_max_stage_count f c = (f, []))
    ∧ (∀ nm, Flow.start_stage f nm = (f, [])) := by
  refine ⟨?_, ?_, ?_⟩
  · rw [Flow.end_stage, hp]
  · intro c
    rw [Flow.set_max_stage_count, hp]
  · intro nm
    rw [Flow.start_stage, hp]

/-- Witness for C10 at a freshly initialized flow. -/
theorem claim_C10_witness :
    Flow.end_stage (Flow.init Nat none "F" "c" "d") = Except.error PyExc.attributeError
    ∧ (∀ c, Flow.set_max_stage_count (Flow.init Nat none "F" "c" "d") c
        = (Flow.init Nat none "F" "c" "d", []))
    ∧ (∀ nm, Flow.start_stage (Flow.init Nat none "F" "c" "d") nm
        = (Flow.init Nat none "F" "c" "d", [])) :=
  claim_C10 (Flow.init Nat none "F" "c" "d") rfl

/-- Helper: advancing by no steps is the identity. -/
theorem advance_nil {σ : Type} (f : Flow σ) : advance f [] = f := by
  simp [advance]

/-- Helper: advancing by one step then by the remainder equals advancing by
the whole list. -/
theorem advance_cons {σ : Type} (f : Flow σ) (c : StepInst σ) (pre1 : List (StepInst σ)) :
    advance (advance f [c]) pre1 = advance f (c :: pre1) := by
  cases f
  simp only [advance, List.append_assoc, List.singleton_append, List.length_cons,
    List.length_nil, List.length_singleton, Flow.mk.injEq, true_and, and_true]
  omega

/-- Helper: one loop iteration whose step succeeds. -/
theorem runLoop_cons_ok {σ : Type} [Inhabited σ] (c : StepInst σ) (rest : List (StepInst σ))
    (f : Flow σ) (sl : List σ) (tid : Nat) (s1 : σ)
    (hp : f.progress = some ()) (ht : f.task_id = some tid)
    (hex : c.exec (sl.getLastD default) = StepResult.ok s1) :
    SequentialFlow.runLoop (c :: rest) f sl
      = (( SequentialFlow.runLoop rest (advance f [c]) (sl ++ [s1])).1,
         Event.updDescription tid (stageDesc ( Flow.get_name f) (f.ordinal + 1) c.name)
           :: Event.execStep c.id (sl.getLastD default)
           :: Event.updCompleted (some tid) (f.ordinal + 1)
           :: ( SequentialFlow.runLoop rest (advance f [c]) (sl ++ [s1])).2.1,
         ( SequentialFlow.runLoop rest (advance f [c]) (sl ++ [s1])).2.2) := by
  simp only [SequentialFlow.runLoop, Flow.start_stage, Flow.end_stage, advance,
    Flow.get_name, hp, ht, hex, List.length_singleton, List.singleton_append,
    List.cons_append, List.nil_append, List.append_assoc]

/-- Helper: one loop iteration whose step raises MissingInputError. -/
theorem runLoop_cons_missing {σ : Type} [Inhabited σ] (c : StepInst σ)
    (rest : List (StepInst σ)) (f : Flow σ) (sl : List σ) (tid : Nat) (m : String)
    (hp : f.progress = some ()) (ht : f.task_id = some tid)
    (hex : c.exec (sl.getLastD default) = StepResult.missingInput m) :
    SequentialFlow.runLoop (c :: rest) f sl
      = (advance f [c],
         [Event.updDescription tid (stageDesc ( Flow.get_name f) (f.ordinal + 1) c.name),
          Event.execStep c.id (sl.getLastD default),
          Event.errMsg ("Misconfigured flow: " ++ m)],
         Except.ok (false, sl)) := by
  simp only [SequentialFlow.runLoop, Flow.start_stage, advance, Flow.get_name,
    hp, ht, hex, List.length_singleton, List.cons_append, List.nil_append]

/-- Helper: one loop iteration whose step raises CalledProcessError. -/
theorem runLoop_cons_cpe {σ : Type} [Inhabited σ] (c : StepInst σ)
    (rest : List (StepInst σ)) (f : Flow σ) (sl : List σ) (tid : Nat)
    (hp : f.progress = some ()) (ht : f.task_id = some tid)
    (hex : c.exec (sl.getLastD default) = StepResult.calledProcessError) :
    SequentialFlow.runLoop (c :: rest) f sl
      = (advance f [c],
         [Event.updDescription tid (stageDesc ( Flow.get_name f) (f.ordinal + 1) c.name),
          Event.execStep c.id (sl.getLastD default),
          Event.errMsg "An error has been encountered. The flow will stop."],
         Except.ok (false, sl)) := by
  simp only [SequentialFlow.runLoop, Flow.start_stage, advance, Flow.get_name,
    hp, ht, hex, List.length_singleton, List.cons_append, List.nil_append]

/-- Helper: one loop iteration whose step raises an unanticipated
exception, which escapes the loop. -/
theorem runLoop_cons_exc {σ : Type} [Inhabited σ] (c : StepInst σ)
    (rest : List (StepInst σ)) (f : Flow σ) (sl : List σ) (tid : Nat) (m : String)
    (hp : f.progress = some ()) (ht : f.task_id = some tid)
    (hex : c.exec (sl.getLastD default) = StepResult.otherExc m) :
    SequentialFlow.runLoop (c :: rest) f sl
      = (advance f [c],
         [Event.updDescription tid (stageDesc ( Flow.get_name f) (f.ordinal + 1) c.name),
          Event.execStep c.id (sl.getLastD default)],
         Except.error (PyExc.raised m)) := by
  simp only [SequentialFlow.runLoop, Flow.start_stage, advance, Flow.get_name,
    hp, ht, hex, List.length_singleton, List.cons_append, List.nil_append]

/-- Helper: descEvents distributes over append. -/
theorem descEvents_append {σ : Type} (a b : List (Event σ)) :
    descEvents (a ++ b) = descEvents a ++ descEvents b := by
  induction a with
  | nil => rfl
  | cons e rest ih => cases e <;> simp [descEvents, ih]

/-- Helper: execInputs distributes over append. -/
theorem execInputs_append {σ : Type} (a b : List (Event σ)) :
    execInputs (a ++ b) = execInputs a ++ execInputs b := by
  induction a with
  | nil => rfl
  | cons e rest ih => cases e <;> simp [execInputs, ih]

/-- Helper: running the loop on `pre ++ rest` when every step of `pre`
succeeds reduces to running it on `rest` from the advanced flow, with one
new state appended per step of `pre` and the stage descriptions of `pre`
issued in declared order. -/
theorem runLoop_append {σ : Type} [Inhabited σ] (pre : List (StepInst σ)) :
    ∀ (rest : List (StepInst σ)) (f : Flow σ) (sl : List σ) (tid : Nat),
      f.progress = some () → f.task_id = some tid →
      (∀ st ∈ pre, ∀ s, ∃ s1, st.exec s = StepResult.ok s1) →
      ∃ outs E1,
        outs.length = pre.length
        ∧ SequentialFlow.runLoop (pre ++ rest) f sl
            = (( SequentialFlow.runLoop rest (advance f pre) (sl ++ outs)).1,
               E1 ++ ( SequentialFlow.runLoop rest (advance f pre) (sl ++ outs)).2.1,
               ( SequentialFlow.runLoop rest (advance f pre) (sl ++ outs)).2.2)
        ∧ descEvents E1 = expectedDescs ( Flow.get_name f) f.ordinal pre := by
  induction pre with
  | nil =>
      intro rest f sl tid hp ht _
      refine ⟨[], [], rfl, ?_, rfl⟩
      simp [advance_nil]
  | cons c pre1 ih =>
      intro rest f sl tid hp ht hok
      obtain ⟨s1, hs1⟩ := hok c (List.mem_cons_self c pre1) (sl.getLastD default)
      have hcons := runLoop_cons_ok c (pre1 ++ rest) f sl tid s1 hp ht hs1
      have hp2 : (advance f [c]).progress = some () := hp
      have ht2 : (advance f [c]).task_id = some tid := ht
      obtain ⟨outs1, E2, hlen, heq, hdesc⟩ :=
        ih rest (advance f [c]) (sl ++ [s1]) tid hp2 ht2
          (fun st hst s => hok st (List.mem_cons_of_mem c hst) s)
      refine ⟨s1 :: outs1,
        Event.updDescription tid (stageDesc ( Flow.get_name f) (f.ordinal + 1) c.name)
          :: Event.execStep c.id (sl.getLastD default)
          :: Event.updCompleted (some tid) (f.ordinal + 1) :: E2, ?_, ?_, ?_⟩
      · simp [hlen]
      · rw [List.cons_append, hcons, heq, advance_cons]
        have hsl : (sl ++ [s1]) ++ outs1 = sl ++ (s1 :: outs1) := by simp
        rw [hsl]
        simp
      · have hnm : Flow.get_name (advance f [c]) = Flow.get_name f := rfl
        have hod : (advance f [c]).ordinal = f.ordinal + 1 := rfl
        rw [hnm, hod] at hdesc
        simp only [descEvents, expectedDescs, hdesc]

/-- Helper: a loop in which every step succeeds returns `(True, lineage)`
with one appended state per step, advances the flow by all steps, and
issues the stage descriptions in declared order. -/
theorem runLoop_ok {σ : Type} [Inhabited σ] (pre : List (StepInst σ))
    (f : Flow σ) (sl : List σ) (tid : Nat)
    (hp : f.progress = some ()) (ht : f.task_id = some tid)
    (hok : ∀ st ∈ pre, ∀ s, ∃ s1, st.exec s = StepResult.ok s1) :
    ∃ outs E1,
      outs.length = pre.length
      ∧ SequentialFlow.runLoop pre f sl = (advance f pre, E1, Except.ok (true, sl ++ outs))
      ∧ descEvents E1 = expectedDescs ( Flow.get_name f) f.ordinal pre := by
  obtain ⟨outs, E1, hlen, heq, hdesc⟩ := runLoop_append pre [] f sl tid hp ht hok
  rw [List.append_nil] at heq
  refine ⟨outs, E1 ++ [Event.successMsg "Flow complete."], hlen, ?_, ?_⟩
  · rw [heq]
    simp [SequentialFlow.runLoop]
  · rw [descEvents_append, hdesc]
    simp [descEvents]

/-- Helper: evaluation of `SequentialFlow.run` when progress tracking is
active on the underlying flow. -/
theorem run_eval {σ : Type} [Inhabited σ] (sf : SequentialFlow σ) (ist : Option σ) (tid : Nat)
    (hp : sf.toFlow.progress = some ()) (ht : sf.toFlow.task_id = some tid) :
    SequentialFlow.run sf ist
      = (( SequentialFlow.runLoop sf.Steps { sf.toFlow with max_stage := sf.Steps.length }
            [ist.getD default]).1,
         Event.updTotal tid sf.Steps.length
           :: Event.logMsg "Starting…"
           :: ( SequentialFlow.runLoop sf.Steps { sf.toFlow with max_stage := sf.Steps.length }
                 [ist.getD default]).2.1,
         ( SequentialFlow.runLoop sf.Steps { sf.toFlow with max_stage := sf.Steps.length }
             [ist.getD default]).2.2) := by
  simp only [SequentialFlow.run, Flow.set_max_stage_count, hp, ht, List.cons_append,
    List.nil_append, List.singleton_append]

/-- Helper: evaluation of the sealed entry point when the strategy's run
returns normally: the returned flow is the run's flow with the run-scoped
fields progress, task id, tmp dir, toolbox, ordinal and max_stage reset. -/
theorem startWith_ok_eval {σ : Type}
    (runImpl : Flow σ → Option σ → Flow σ × List (Event σ) × Except PyExc (Bool × List σ))
    (f : Flow σ) (ist : Option σ) (tag : Option String) (nowTag : String)
    (res : Bool × List σ)
    (h : (runImpl ( Flow.startPrep f tag nowTag) ist).2.2 = Except.ok res) :
    Flow.startWith runImpl f ist tag nowTag
      = ({ (runImpl ( Flow.startPrep f tag nowTag) ist).1 with
           progress := none, task_id := none, tmp_dir := none, toolbox := none,
           ordinal := 0, max_stage := 0 },
         Flow.startEvents f tag nowTag
           ++ (runImpl ( Flow.startPrep f tag nowTag) ist).2.1 ++ [Event.progressStop],
         Except.ok res) := by
  simp only [Flow.startWith, h]

/-- Helper: evaluation of the sealed entry point when the strategy's run
raises: the exception propagates unchanged and no reset happens. -/
theorem startWith_err_eval {σ : Type}
    (runImpl : Flow σ → Option σ → Flow σ × List (Event σ) × Except PyExc (Bool × List σ))
    (f : Flow σ) (ist : Option σ) (tag : Option String) (nowTag : String) (e : PyExc)
    (h : (runImpl ( Flow.startPrep f tag nowTag) ist).2.2 = Except.error e) :
    Flow.startWith runImpl f ist tag nowTag
      = ((runImpl ( Flow.startPrep f tag nowTag) ist).1,
         Flow.startEvents f tag nowTag ++ (runImpl ( Flow.startPrep f tag nowTag) ist).2.1,
         Except.error e) := by
  simp only [Flow.startWith, h]

/-- C1: for a SequentialFlow with N declared step types, all of whose
executions succeed, start() returns (True, lineage) with the lineage of
length N + 1, the stage ordinal is N at the end of run (on the flow state
run produces, before start's reset), and the stage descriptions are issued
in declared order. -/
theorem claim_C1 {σ : Type} [Inhabited σ] (sf : SequentialFlow σ) (ist : Option σ)
    (tag : Option String) (nowTag : String)
    (hord : sf.toFlow.ordinal = 0)
    (hok : ∀ st ∈ sf.Steps, ∀ s, ∃ s1, st.exec s = StepResult.ok s1) :
    (∃ lineage, ( SequentialFlow.start sf ist tag nowTag).2.2
        = Except.ok (true, lineage) ∧ lineage.length = sf.Steps.length + 1)
    ∧ ( SequentialFlow.run
          (SequentialFlow.mk ( Flow.startPrep sf.toFlow tag nowTag) sf.Steps) ist).1.ordinal
        = sf.Steps.length
    ∧ descEvents ( SequentialFlow.start sf ist tag nowTag).2.1
        = expectedDescs ( Flow.get_name sf.toFlow) 0 sf.Steps := by
  obtain ⟨fl, Stps⟩ := sf
  dsimp only at hord hok ⊢
  have hrun := run_eval
    (SequentialFlow.mk ( Flow.startPrep fl tag nowTag) Stps) ist 0 rfl rfl
  dsimp only at hrun
  obtain ⟨outs, E1, hlen, hloop, hdesc⟩ :=
    runLoop_ok Stps { Flow.startPrep fl tag nowTag with max_stage := Stps.length }
      [ist.getD default] 0 rfl rfl hok
  rw [hloop] at hrun
  dsimp only at hrun
  have h22 : ( SequentialFlow.run
      (SequentialFlow.mk ( Flow.startPrep fl tag nowTag) Stps) ist).2.2
      = Except.ok (true, ist.getD default :: outs) := by
    rw [hrun]
    simp
  have hstart := startWith_ok_eval
    (fun fl2 ist2 => SequentialFlow.run (SequentialFlow.mk fl2 Stps) ist2)
    fl ist tag nowTag (true, ist.getD default :: outs) h22
  have hsdef : SequentialFlow.start (SequentialFlow.mk fl Stps) ist tag nowTag
      = Flow.startWith (fun fl2 ist2 => SequentialFlow.run (SequentialFlow.mk fl2 Stps) ist2)
          fl ist tag nowTag := rfl
  have hEV : ( SequentialFlow.start (SequentialFlow.mk fl Stps) ist tag nowTag).2.1
      = Flow.startEvents fl tag nowTag
        ++ (Event.updTotal 0 Stps.length :: Event.logMsg "Starting…" :: E1)
        ++ [Event.progressStop] := by
    rw [hsdef, hstart]
    dsimp only
    rw [hrun]
  refine ⟨⟨ist.getD default :: outs, ?_, ?_⟩, ?_, ?_⟩
  · rw [hsdef, hstart]
  · simp [hlen]
  · rw [hrun]
    simp only [advance, Flow.startPrep]
    rw [hord]
    simp
  · rw [hEV, descEvents_append, descEvents_append]
    have hgn : Flow.get_name
        ({ Flow.startPrep fl tag nowTag with max_stage := Stps.length } : Flow σ)
        = Flow.get_name fl := rfl
    have hor : ({ Flow.startPrep fl tag nowTag with max_stage := Stps.length } : Flow σ).ordinal
        = fl.ordinal := rfl
    rw [hgn, hor, hord] at hdesc
    simp [descEvents, hdesc, Flow.startEvents]

/-- Witness for C1: a two-step flow on Nat, both steps succeeding. -/
theorem claim_C1_witness :
    (∃ lineage,
        ( SequentialFlow.start (SequentialFlow.mk fl0 [okStep, okStep2]) (some 5)
            (some "t") "now").2.2 = Except.ok (true, lineage)
        ∧ lineage.length = [okStep, okStep2].length + 1)
    ∧ ( SequentialFlow.run
          (SequentialFlow.mk ( Flow.startPrep fl0 (some "t") "now") [okStep, okStep2])
          (some 5)).1.ordinal = [okStep, okStep2].length
    ∧ descEvents ( SequentialFlow.start (SequentialFlow.mk fl0 [okStep, okStep2]) (some 5)
          (some "t") "now").2.1
        = expectedDescs ( Flow.get_name fl0) 0 [okStep, okStep2] :=
  claim_C1 (SequentialFlow.mk fl0 [okStep, okStep2]) (some 5) (some "t") "now" rfl
    (by
      intro st hst s
      simp only [List.mem_cons, List.mem_singleton] at hst
      rcases hst with h | h | h
      · exact ⟨s + 1, by rw [h]; rfl⟩
      · exact ⟨s * 2, by rw [h]; rfl⟩
      · exact absurd h (by simp))

/-- C9: with zero declared step types, start() executes no step, run sets
the expected stage count to 0, the ordinal stays 0, the record of executed
steps is untouched, and the result is (True, [initial_state]) where the
initial state defaults to the default-empty state. -/
theorem claim_C9 {σ : Type} [Inhabited σ] (sf : SequentialFlow σ) (ist : Option σ)
    (tag : Option String) (nowTag : String)
    (hsteps : sf.Steps = []) (hord : sf.toFlow.ordinal = 0) :
    ( SequentialFlow.start sf ist tag nowTag).2.2 = Except.ok (true, [ist.getD default])
    ∧ ( SequentialFlow.run
        (SequentialFlow.mk ( Flow.startPrep sf.toFlow tag nowTag) sf.Steps) ist).1.max_stage = 0
    ∧ ( SequentialFlow.run
        (SequentialFlow.mk ( Flow.startPrep sf.toFlow tag nowTag) sf.Steps) ist).1.ordinal = 0
    ∧ ( SequentialFlow.run
        (SequentialFlow.mk ( Flow.startPrep sf.toFlow tag nowTag) sf.Steps) ist).1.steps
        = sf.toFlow.steps := by
  obtain ⟨fl, Stps⟩ := sf
  dsimp only at hsteps hord ⊢
  subst hsteps
  have hrun := run_eval
    (SequentialFlow.mk ( Flow.startPrep fl tag nowTag) ([] : List (StepInst σ))) ist 0 rfl rfl
  dsimp only at hrun
  simp only [SequentialFlow.runLoop] at hrun
  have h22 : ( SequentialFlow.run
      (SequentialFlow.mk ( Flow.startPrep fl tag nowTag) ([] : List (StepInst σ))) ist).2.2
      = Except.ok (true, [ist.getD default]) := by
    rw [hrun]
  have hstart := startWith_ok_eval
    (fun fl2 ist2 => SequentialFlow.run (SequentialFlow.mk fl2 ([] : List (StepInst σ))) ist2)
    fl ist tag nowTag (true, [ist.getD default]) h22
  have hsdef : SequentialFlow.start (SequentialFlow.mk fl ([] : List (StepInst σ))) ist tag nowTag
      = Flow.startWith
          (fun fl2 ist2 => SequentialFlow.run (SequentialFlow.mk fl2 ([] : List (StepInst σ))) ist2)
          fl ist tag nowTag := rfl
  refine ⟨?_, ?_, ?_, ?_⟩
  · rw [hsdef, hstart]
  · rw [hrun]
    rfl
  · rw [hrun]
    simp only [Flow.startPrep]
    exact hord
  · rw [hrun]
    rfl

/-- Witness for C9: the zero-step flow on Nat. -/
theorem claim_C9_witness :
    ( SequentialFlow.start (SequentialFlow.mk fl0 []) (some 7) (some "t") "now").2.2
      = Except.ok (true, [(some 7 : Option Nat).getD default])
    ∧ ( SequentialFlow.run
        (SequentialFlow.mk ( Flow.startPrep fl0 (some "t") "now") []) (some 7)).1.max_stage = 0
    ∧ ( SequentialFlow.run
        (SequentialFlow.mk ( Flow.startPrep fl0 (some "t") "now") []) (some 7)).1.ordinal = 0
    ∧ ( SequentialFlow.run
        (SequentialFlow.mk ( Flow.startPrep fl0 (some "t") "now") []) (some 7)).1.steps
        = fl0.steps :=
  claim_C9 (SequentialFlow.mk fl0 []) (some 7) (some "t") "now" rfl rfl

/-- C2: if the k-th declared step (k = pre.length + 1) raises
MissingInputError or CalledProcessError while every earlier step succeeds,
start() returns (False, lineage) with the lineage of length exactly k, and
no step type after the k-th is instantiated: the record of executed steps
ends at the k-th step. -/
theorem claim_C2 {σ : Type} [Inhabited σ] (sf : SequentialFlow σ) (ist : Option σ)
    (tag : Option String) (nowTag : String)
    (pre post : List (StepInst σ)) (bad : StepInst σ)
    (hsteps : sf.Steps = pre ++ bad :: post)
    (hst0 : sf.toFlow.steps = [])
    (hpre : ∀ st ∈ pre, ∀ s, ∃ s1, st.exec s = StepResult.ok s1)
    (hbad : ∀ s, (∃ m, bad.exec s = StepResult.missingInput m)
        ∨ bad.exec s = StepResult.calledProcessError) :
    (∃ lineage, ( SequentialFlow.start sf ist tag nowTag).2.2
        = Except.ok (false, lineage) ∧ lineage.length = pre.length + 1)
    ∧ ( SequentialFlow.start sf ist tag nowTag).1.steps = pre ++ [bad] := by
  obtain ⟨fl, Stps⟩ := sf
  dsimp only at hsteps hst0 ⊢
  subst hsteps
  have hrun := run_eval
    (SequentialFlow.mk ( Flow.startPrep fl tag nowTag) (pre ++ bad :: post)) ist 0 rfl rfl
  dsimp only at hrun
  obtain ⟨outs, E1, hlen, happ, hdesc⟩ :=
    runLoop_append pre (bad :: post)
      { Flow.startPrep fl tag nowTag with max_stage := (pre ++ bad :: post).length }
      [ist.getD default] 0 rfl rfl hpre
  have hloopbad : ∃ EV,
      SequentialFlow.runLoop (bad :: post)
        (advance { Flow.startPrep fl tag nowTag with
                   max_stage := (pre ++ bad :: post).length } pre)
        ([ist.getD default] ++ outs)
      = (advance (advance { Flow.startPrep fl tag nowTag with
                            max_stage := (pre ++ bad :: post).length } pre) [bad],
         EV, Except.ok (false, [ist.getD default] ++ outs)) := by
    rcases hbad (([ist.getD default] ++ outs).getLastD default) with ⟨m, hm⟩ | hm
    · exact ⟨_, runLoop_cons_missing bad post
        (advance { Flow.startPrep fl tag nowTag with
                   max_stage := (pre ++ bad :: post).length } pre)
        ([ist.getD default] ++ outs) 0 m rfl rfl hm⟩
    · exact ⟨_, runLoop_cons_cpe bad post
        (advance { Flow.startPrep fl tag nowTag with
                   max_stage := (pre ++ bad :: post).length } pre)
        ([ist.getD default] ++ outs) 0 rfl rfl hm⟩
  obtain ⟨EV, hfail⟩ := hloopbad
  rw [hfail] at happ
  dsimp only at happ
  rw [happ] at hrun
  dsimp only at hrun
  have h22 : ( SequentialFlow.run
      (SequentialFlow.mk ( Flow.startPrep fl tag nowTag) (pre ++ bad :: post)) ist).2.2
      = Except.ok (false, ist.getD default :: outs) := by
    rw [hrun]
    simp
  have hstart := startWith_ok_eval
    (fun fl2 ist2 => SequentialFlow.run (SequentialFlow.mk fl2 (pre ++ bad :: post)) ist2)
    fl ist tag nowTag (false, ist.getD default :: outs) h22
  have hsdef : SequentialFlow.start (SequentialFlow.mk fl (pre ++ bad :: post)) ist tag nowTag
      = Flow.startWith
          (fun fl2 ist2 => SequentialFlow.run (SequentialFlow.mk fl2 (pre ++ bad :: post)) ist2)
          fl ist tag nowTag := rfl
  refine ⟨⟨ist.getD default :: outs, ?_, ?_⟩, ?_⟩
  · rw [hsdef, hstart]
  · simp [hlen]
  · rw [hsdef, hstart]
    dsimp only
    rw [hrun]
    simp [advance, Flow.startPrep, hst0]

/-- Witness for C2: a flow whose second step raises MissingInputError. -/
theorem claim_C2_witness :
    (∃ lineage,
        ( SequentialFlow.start (SequentialFlow.mk fl0 [okStep, misStep, okStep2]) (some 5)
            (some "t") "now").2.2 = Except.ok (false, lineage)
        ∧ lineage.length = [okStep].length + 1)
    ∧ ( SequentialFlow.start (SequentialFlow.mk fl0 [okStep, misStep, okStep2]) (some 5)
          (some "t") "now").1.steps = [okStep] ++ [misStep] :=
  claim_C2 (SequentialFlow.mk fl0 [okStep, misStep, okStep2]) (some 5) (some "t") "now"
    [okStep] [okStep2] misStep rfl rfl
    (by
      intro st hst s
      simp only [List.mem_singleton] at hst
      exact ⟨s + 1, by rw [hst]; rfl⟩)
    (fun s => Or.inl ⟨"netlist", rfl⟩)

/-- Helper: start_stage records no step execution. -/
theorem start_stage_execInputs {σ : Type} (f : Flow σ) (nm : String) :
    execInputs ( Flow.start_stage f nm).2 = ([] : List σ) := by
  unfold Flow.start_stage
  cases hp : f.progress <;> cases ht : f.task_id <;> simp [execInputs]

/-- Helper: a successful end_stage records no step execution. -/
theorem end_stage_execInputs {σ : Type} (f : Flow σ) (q : Flow σ × List (Event σ))
    (h : Flow.end_stage f = Except.ok q) : execInputs q.2 = ([] : List σ) := by
  unfold Flow.end_stage at h
  cases hp : f.progress with
  | none => rw [hp] at h; exact absurd h (by simp)
  | some u =>
      rw [hp] at h
      have hq : (f, [Event.updCompleted f.task_id f.ordinal]) = q :=
        (Except.ok.injEq _ _).mp h
      rw [← hq]
      rfl

/-- Helper: set_max_stage_count records no step execution. -/
theorem set_max_execInputs {σ : Type} (f : Flow σ) (c : Nat) :
    execInputs ( Flow.set_max_stage_count f c).2 = ([] : List σ) := by
  unfold Flow.set_max_stage_count
  cases hp : f.progress <;> cases ht : f.task_id <;> simp [execInputs]

/-- Helper: indexing a nonempty list at its last position yields its
getLastD value. -/
theorem getq_lastD {σ : Type} : ∀ (sl : List σ) (d : σ), sl ≠ [] →
    sl.get? (sl.length - 1) = some (sl.getLastD d) := by
  intro sl
  induction sl with
  | nil => intro d h; exact absurd rfl h
  | cons a t ih =>
      intro d _
      cases t with
      | nil => rfl
      | cons b t2 =>
          have h2 := ih a (by simp)
          have hlen : (a :: b :: t2).length - 1 = t2.length + 1 := by simp
          rw [hlen, List.get?_cons_succ]
          have hlen2 : (b :: t2).length - 1 = t2.length := by simp
          rw [hlen2] at h2
          rw [h2, List.getLastD_cons d a (b :: t2)]

/-- Helper: if the loop converts a run into a normal `(False, lineage)`
result, some step of the list signalled one of the two recognized failure
kinds on some state. -/
theorem runLoop_false_kind {σ : Type} [Inhabited σ] (steps : List (StepInst σ)) :
    ∀ (f : Flow σ) (sl l : List σ),
      ( SequentialFlow.runLoop steps f sl).2.2 = Except.ok (false, l) →
      ∃ st s, st ∈ steps ∧ ((∃ m, st.exec s = StepResult.missingInput m)
        ∨ st.exec s = StepResult.calledProcessError) := by
  induction steps with
  | nil =>
      intro f sl l h
      simp [SequentialFlow.runLoop] at h
  | cons c rest ih =>
      intro f sl l h
      simp only [SequentialFlow.runLoop] at h
      cases hex : c.exec (sl.getLastD default) with
      | ok s1 =>
          rw [hex] at h
          dsimp only at h
          cases hes : Flow.end_stage
              ( Flow.start_stage { f with steps := f.steps ++ [c] } c.name).1 with
          | error e =>
              rw [hes] at h
              dsimp only at h
              exact absurd h (by simp)
          | ok q =>
              rw [hes] at h
              dsimp only at h
              obtain ⟨st, s, hmem, hkind⟩ := ih q.1 (sl ++ [s1]) l h
              exact ⟨st, s, List.mem_cons_of_mem c hmem, hkind⟩
      | missingInput m =>
          exact ⟨c, sl.getLastD default, List.mem_cons_self c rest, Or.inl ⟨m, hex⟩⟩
      | calledProcessError =>
          exact ⟨c, sl.getLastD default, List.mem_cons_self c rest, Or.inr hex⟩
      | otherExc m =>
          rw [hex] at h
          dsimp only at h
          exact absurd h (by simp)

/-- C3: SequentialFlow.run converts only the two recognized failure kinds
into a normal (False, partial lineage) result; a step that raises any
other exception makes it propagate unchanged out of start(). -/
theorem claim_C3 {σ : Type} [Inhabited σ] :
    (∀ (sf : SequentialFlow σ) (ist : Option σ) (l : List σ),
        ( SequentialFlow.run sf ist).2.2 = Except.ok (false, l) →
        ∃ st s, st ∈ sf.Steps ∧ ((∃ m, st.exec s = StepResult.missingInput m)
          ∨ st.exec s = StepResult.calledProcessError))
    ∧ (∀ (sf : SequentialFlow σ) (ist : Option σ) (tag : Option String) (nowTag : String)
          (pre post : List (StepInst σ)) (bad : StepInst σ) (m : String),
        sf.Steps = pre ++ bad :: post →
        (∀ st ∈ pre, ∀ s, ∃ s1, st.exec s = StepResult.ok s1) →
        (∀ s, bad.exec s = StepResult.otherExc m) →
        ( SequentialFlow.start sf ist tag nowTag).2.2 = Except.error (PyExc.raised m)) := by
  constructor
  · intro sf ist l h
    simp only [SequentialFlow.run] at h
    exact runLoop_false_kind sf.Steps _ _ l h
  · intro sf ist tag nowTag pre post bad m hsteps hpre hbadexc
    obtain ⟨fl, Stps⟩ := sf
    dsimp only at hsteps ⊢
    subst hsteps
    have hrun := run_eval
      (SequentialFlow.mk ( Flow.startPrep fl tag nowTag) (pre ++ bad :: post)) ist 0 rfl rfl
    dsimp only at hrun
    obtain ⟨outs, E1, hlen, happ, hdesc⟩ :=
      runLoop_append pre (bad :: post)
        { Flow.startPrep fl tag nowTag with max_stage := (pre ++ bad :: post).length }
        [ist.getD default] 0 rfl rfl hpre
    have hfail := runLoop_cons_exc bad post
      (advance { Flow.startPrep fl tag nowTag with
                 max_stage := (pre ++ bad :: post).length } pre)
      ([ist.getD default] ++ outs) 0 m rfl rfl
      (hbadexc (([ist.getD default] ++ outs).getLastD default))
    rw [hfail] at happ
    dsimp only at happ
    rw [happ] at hrun
    dsimp only at hrun
    have h22 : ( SequentialFlow.run
        (SequentialFlow.mk ( Flow.startPrep fl tag nowTag) (pre ++ bad :: post)) ist).2.2
        = Except.error (PyExc.raised m) := by
      rw [hrun]
    have hstart := startWith_err_eval
      (fun fl2 ist2 => SequentialFlow.run (SequentialFlow.mk fl2 (pre ++ bad :: post)) ist2)
      fl ist tag nowTag (PyExc.raised m) h22
    have hsdef : SequentialFlow.start (SequentialFlow.mk fl (pre ++ bad :: post)) ist tag nowTag
        = Flow.startWith
            (fun fl2 ist2 =>
              SequentialFlow.run (SequentialFlow.mk fl2 (pre ++ bad :: post)) ist2)
            fl ist tag nowTag := rfl
    rw [hsdef, hstart]

/-- Witness for C3: a run ending in (False, lineage) exhibits a recognized
failure kind, and a step raising ValueError escapes start() unchanged. -/
theorem claim_C3_witness :
    (∃ st s, st ∈ (SequentialFlow.mk fl0 [misStep]).Steps
        ∧ ((∃ m, StepInst.exec st s = StepResult.missingInput m)
          ∨ StepInst.exec st s = StepResult.calledProcessError))
    ∧ ( SequentialFlow.start (SequentialFlow.mk fl0 [okStep, excStep]) (some 5)
          (some "t") "now").2.2 = Except.error (PyExc.raised "ValueError") :=
  ⟨(claim_C3.1 (SequentialFlow.mk fl0 [misStep]) (some 5) [5]) (by decide),
   claim_C3.2 (SequentialFlow.mk fl0 [okStep, excStep]) (some 5) (some "t") "now"
     [okStep] [] excStep "ValueError" rfl
     (by
       intro st hst s
       simp only [List.mem_singleton] at hst
       exact ⟨s + 1, by rw [hst]; rfl⟩)
     (fun s => rfl)⟩

/-- Helper: trace correctness of the loop: whenever it returns normally,
the returned lineage extends the incoming one, and the state consumed by
the j-th step execution recorded in the event trace is the lineage entry
just before that step's output. -/
theorem runLoop_trace {σ : Type} [Inhabited σ] (steps : List (StepInst σ)) :
    ∀ (f : Flow σ) (sl : List σ) (F : Flow σ) (E : List (Event σ))
      (r : Except PyExc (Bool × List σ)),
      SequentialFlow.runLoop steps f sl = (F, E, r) →
      sl ≠ [] →
      ∀ (b : Bool) (l : List σ), r = Except.ok (b, l) →
        (∃ ext, l = sl ++ ext)
        ∧ ∀ j, j < (execInputs E).length →
            (execInputs E).get? j = l.get? (sl.length - 1 + j) := by
  induction steps with
  | nil =>
      intro f sl F E r h hne b l hr
      simp only [SequentialFlow.runLoop] at h
      obtain ⟨hF, hE, hr2⟩ := h
      have hbl : ((true : Bool), sl) = (b, l) := (Except.ok.injEq _ _).mp hr
      have hl : sl = l := ((Prod.mk.injEq _ _ _ _).mp hbl).2
      constructor
      · exact ⟨[], by rw [← hl, List.append_nil]⟩
      · intro j hj
        simp [execInputs] at hj
  | cons c rest ih =>
      intro f sl F E r h hne b l hr
      simp only [SequentialFlow.runLoop] at h
      cases hex : c.exec (sl.getLastD default) with
      | missingInput m =>
          rw [hex] at h
          dsimp only at h
          obtain ⟨hF, hE, hr2⟩ := h
          have hbl : ((false : Bool), sl) = (b, l) := (Except.ok.injEq _ _).mp hr
          have hl : sl = l := ((Prod.mk.injEq _ _ _ _).mp hbl).2
          refine ⟨⟨[], by rw [← hl, List.append_nil]⟩, ?_⟩
          intro j hj
          rw [execInputs_append, start_stage_execInputs] at hj ⊢
          simp only [execInputs, List.nil_append, List.length_cons, List.length_nil,
            Nat.lt_succ_iff, Nat.le_zero] at hj
          subst hj
          rw [← hl, Nat.add_zero, getq_lastD sl default hne]
          simp [execInputs]
      | calledProcessError =>
          rw [hex] at h
          dsimp only at h
          obtain ⟨hF, hE, hr2⟩ := h
          have hbl : ((false : Bool), sl) = (b, l) := (Except.ok.injEq _ _).mp hr
          have hl : sl = l := ((Prod.mk.injEq _ _ _ _).mp hbl).2
          refine ⟨⟨[], by rw [← hl, List.append_nil]⟩, ?_⟩
          intro j hj
          rw [execInputs_append, start_stage_execInputs] at hj ⊢
          simp only [execInputs, List.nil_append, List.length_cons, List.length_nil,
            Nat.lt_succ_iff, Nat.le_zero] at hj
          subst hj
          rw [← hl, Nat.add_zero, getq_lastD sl default hne]
          simp [execInputs]
      | otherExc m =>
          rw [hex] at h
          dsimp only at h
          obtain ⟨hF, hE, hr2⟩ := h
          exact absurd hr (by simp)
      | ok s1 =>
          rw [hex] at h
          dsimp only at h
          cases hes : Flow.end_stage
              ( Flow.start_stage { f with steps := f.steps ++ [c] } c.name).1 with
          | error e =>
              rw [hes] at h
              dsimp only at h
              obtain ⟨hF, hE, hr2⟩ := h
              exact absurd hr (by simp)
          | ok q =>
              rw [hes] at h
              dsimp only at h
              obtain ⟨hF, hE, hr2⟩ := h
              obtain ⟨⟨ext, hext⟩, hidx⟩ :=
                ih q.1 (sl ++ [s1])
                  ( SequentialFlow.runLoop rest q.1 (sl ++ [s1])).1
                  ( SequentialFlow.runLoop rest q.1 (sl ++ [s1])).2.1
                  ( SequentialFlow.runLoop rest q.1 (sl ++ [s1])).2.2
                  rfl (by simp) b l hr
              have hlpos : 1 ≤ sl.length := by
                cases sl with
                | nil => exact absurd rfl hne
                | cons x xs => simp
              refine ⟨⟨s1 :: ext, by rw [hext]; simp⟩, ?_⟩
              intro j hj
              rw [execInputs_append, execInputs_append, execInputs_append,
                start_stage_execInputs, end_stage_execInputs _ q hes] at hj ⊢
              simp only [execInputs, List.nil_append, List.append_nil, List.singleton_append,
                List.length_cons] at hj ⊢
              cases j with
              | zero =>
                  rw [List.get?_cons_zero, hext, Nat.add_zero, List.append_assoc]
                  have hlt : sl.length - 1 < sl.length := by omega
                  rw [List.get?_append hlt]
                  exact (getq_lastD sl default hne).symm
              | succ j2 =>
                  rw [List.get?_cons_succ]
                  have hj2 : j2 < (execInputs
                      ( SequentialFlow.runLoop rest q.1 (sl ++ [s1])).2.1).length := by
                    omega
                  have := hidx j2 hj2
                  rw [this]
                  congr 1
                  simp only [List.length_append, List.length_singleton]
                  omega

/-- C4: in SequentialFlow.run, whenever the run returns normally, the
state consumed by the k-th executed step is the entry at index k - 1 of
the returned lineage (the output of step k - 1, or the initial state for
k = 1). -/
theorem claim_C4 {σ : Type} [Inhabited σ] (sf : SequentialFlow σ) (ist : Option σ)
    (b : Bool) (lineage : List σ)
    (h : ( SequentialFlow.run sf ist).2.2 = Except.ok (b, lineage)) :
    ∀ j, j < (execInputs ( SequentialFlow.run sf ist).2.1).length →
      (execInputs ( SequentialFlow.run sf ist).2.1).get? j = lineage.get? j := by
  simp only [SequentialFlow.run] at h ⊢
  obtain ⟨hext, hidx⟩ :=
    runLoop_trace sf.Steps ( Flow.set_max_stage_count sf.toFlow sf.Steps.length).1
      [ist.getD default]
      ( SequentialFlow.runLoop sf.Steps
          ( Flow.set_max_stage_count sf.toFlow sf.Steps.length).1 [ist.getD default]).1
      ( SequentialFlow.runLoop sf.Steps
          ( Flow.set_max_stage_count sf.toFlow sf.Steps.length).1 [ist.getD default]).2.1
      ( SequentialFlow.runLoop sf.Steps
          ( Flow.set_max_stage_count sf.toFlow sf.Steps.length).1 [ist.getD default]).2.2
      rfl (by simp) b lineage h
  intro j hj
  rw [execInputs_append, execInputs_append, set_max_execInputs] at hj ⊢
  simp only [execInputs, List.nil_append] at hj ⊢
  have := hidx j (by simpa using hj)
  simpa using this

/-- Witness for C4: a one-step flow whose step fails on input 5; the only
recorded execution consumed lineage entry 0. -/
theorem claim_C4_witness :
    (execInputs ( SequentialFlow.run (SequentialFlow.mk fl0 [misStep]) (some 5)).2.1).get? 0
      = [(5 : Nat)].get? 0 :=
  claim_C4 (SequentialFlow.mk fl0 [misStep]) (some 5) false [5] (by decide) 0 (by decide)

/-- C5 counterexample: after a completed start() on a one-step flow, the
run directory is still set and the record of executed step instances is
nonempty: contrary to the claim, those two run-scoped fields are not reset
to their unset/zero state. -/
theorem claim_C5_counterexample :
    ( SequentialFlow.start (SequentialFlow.mk fl0 [okStep]) (some 3) (some "t") "now").1.run_dir
      ≠ none
    ∧ ( SequentialFlow.start (SequentialFlow.mk fl0 [okStep]) (some 3)
          (some "t") "now").1.steps.length ≠ 0 := by
  constructor
  · decide
  · decide

/-- C5 (amended): when start() returns normally, the stage ordinal,
expected stage count, scratch directory path, workspace provider,
progress-tracking handle and task id are reset to their unset/zero state;
the run directory path and the record of executed step instances are not
reset. -/
theorem claim_C5 {σ : Type} [Inhabited σ] (sf : SequentialFlow σ) (ist : Option σ)
    (tag : Option String) (nowTag : String) (res : Bool × List σ)
    (h : ( SequentialFlow.start sf ist tag nowTag).2.2 = Except.ok res) :
    ( SequentialFlow.start sf ist tag nowTag).1.ordinal = 0
    ∧ ( SequentialFlow.start sf ist tag nowTag).1.max_stage = 0
    ∧ ( SequentialFlow.start sf ist tag nowTag).1.tmp_dir = none
    ∧ ( SequentialFlow.start sf ist tag nowTag).1.toolbox = none
    ∧ ( SequentialFlow.start sf ist tag nowTag).1.progress = none
    ∧ ( SequentialFlow.start sf ist tag nowTag).1.task_id = none := by
  have hsdef : SequentialFlow.start sf ist tag nowTag
      = Flow.startWith (fun fl2 ist2 => SequentialFlow.run (SequentialFlow.mk fl2 sf.Steps) ist2)
          sf.toFlow ist tag nowTag := rfl
  cases hr : ( SequentialFlow.run
      (SequentialFlow.mk ( Flow.startPrep sf.toFlow tag nowTag) sf.Steps) ist).2.2 with
  | error e =>
      have hst := startWith_err_eval
        (fun fl2 ist2 => SequentialFlow.run (SequentialFlow.mk fl2 sf.Steps) ist2)
        sf.toFlow ist tag nowTag e hr
      rw [hsdef, hst] at h
      exact absurd h (by simp)
  | ok res2 =>
      have hst := startWith_ok_eval
        (fun fl2 ist2 => SequentialFlow.run (SequentialFlow.mk fl2 sf.Steps) ist2)
        sf.toFlow ist tag nowTag res2 hr
      rw [hsdef, hst]
      exact ⟨rfl, rfl, rfl, rfl, rfl, rfl⟩

/-- Witness for the amended C5 at a concrete completed run. -/
theorem claim_C5_witness :
    ( SequentialFlow.start (SequentialFlow.mk fl0 [okStep]) (some 3) (some "t") "now").1.ordinal = 0
    ∧ ( SequentialFlow.start (SequentialFlow.mk fl0 [okStep]) (some 3)
          (some "t") "now").1.max_stage = 0
    ∧ ( SequentialFlow.start (SequentialFlow.mk fl0 [okStep]) (some 3)
          (some "t") "now").1.tmp_dir = none
    ∧ ( SequentialFlow.start (SequentialFlow.mk fl0 [okStep]) (some 3)
          (some "t") "now").1.toolbox = none
    ∧ ( SequentialFlow.start (SequentialFlow.mk fl0 [okStep]) (some 3)
          (some "t") "now").1.progress = none
    ∧ ( SequentialFlow.start (SequentialFlow.mk fl0 [okStep]) (some 3)
          (some "t") "now").1.task_id = none :=
  claim_C5 (SequentialFlow.mk fl0 [okStep]) (some 3) (some "t") "now"
    (true, [3, 4]) (by decide)

end OLFlow
